import Mathlib

/-
Verification of the LS-8 CPU simulator (ls8/cpu.py).

Modelling decisions, kept faithful to the Python source:

* Python integers are unbounded, so machine values are not masked to 8 bits
  anywhere in the source; register and memory cells therefore hold exact
  numbers, not bytes.
* Python true division produces a float.  We model numeric values with the
  inductive type Val: an integer tag and a float tag whose payload is an
  exact rational.  Arithmetic on rationals agrees with Python wherever the
  result is exactly representable; no theorem below depends on the value of
  a non-faulting division.
* Python list indexing on a list of length n accepts indices in [-n, n),
  wrapping negative indices to the top, and raises IndexError otherwise.
  This is pyIdx below.
* Exceptions terminate the run loop; they are modelled by the Err type:
  IndexError (list index out of range), KeyError (branchtable lookup miss),
  TypeError (a float where an int is required, e.g. as a shift or index
  operand), ZeroDivisionError, and the explicit
  Exception "Unsupported ALU operation".
* handle_hlt calls sys.exit, which unwinds the run loop; it is modelled as
  a distinguished halt outcome.
* trace() is called on every non-ALU dispatch; its prints are diagnostic
  but its three ram_read calls mutate mar/mdr, so it is modelled.
* The PRN output channel is modelled as an accumulating list of values.
-/

namespace LS8

/-- Instruction opcodes, as in the source header. -/
def HLT : Int := 1

def LDI : Int := 130

def PRN : Int := 71

def ADD : Int := 160

def SUB : Int := 161

def MUL : Int := 162

def DIV : Int := 163

def PUSH : Int := 69

def POP : Int := 70

/-- Runtime faults that terminate execution, named after the Python
exceptions the source raises. -/
inductive Err where
  | indexError : Err
  | keyError : Err
  | typeError : Err
  | zeroDivisionError : Err
  | unsupportedOperation : Err
deriving DecidableEq

/-- A Python numeric value: an int, or a float modelled as an exact
rational. -/
inductive Val where
  | intV : Int → Val
  | floatV : ℚ → Val
deriving DecidableEq

/-- Numeric value of a Val, for Python value-based comparison and
arithmetic. -/
def toQ : Val → ℚ
  | .intV n => (n : ℚ)
  | .floatV q => q

/-- Python addition: int + int is an int, anything involving a float is a
float. -/
def valAdd : Val → Val → Val
  | .intV a, .intV b => .intV (a + b)
  | a, b => .floatV (toQ a + toQ b)

/-- Python subtraction. -/
def valSub : Val → Val → Val
  | .intV a, .intV b => .intV (a - b)
  | a, b => .floatV (toQ a - toQ b)

/-- Python multiplication. -/
def valMul : Val → Val → Val
  | .intV a, .intV b => .intV (a * b)
  | a, b => .floatV (toQ a * toQ b)

/-- A context that requires a Python int (a shift operand or a list index)
rejects floats with TypeError. -/
def asIdx : Val → Option Int
  | .intV n => some n
  | .floatV _ => none

/-- Python arithmetic right shift on ints: floor division by a power of
two. -/
def pyShr (n : Int) (k : Nat) : Int := Int.fdiv n (2 ^ k)

/-- Python list indexing for a list of length n: indices in [0, n) are
direct, indices in [-n, 0) wrap to the top, anything else is an
IndexError. -/
def pyIdx (n : Nat) (i : Int) : Option (Fin n) :=
  if h : 0 ≤ i ∧ i < (n : Int) then
    some ⟨i.toNat, by omega⟩
  else if h2 : -(n : Int) ≤ i ∧ i < 0 then
    some ⟨(i + (n : Int)).toNat, by omega⟩
  else none

/-- The memory cell an in-range address designates (total helper:
reduces addresses modulo 256, which matches pyIdx on [-256, 255]). -/
def addrFin (a : Int) : Fin 256 := ⟨(a % 256).toNat, by omega⟩

/-- The register slot an in-range register index designates (total helper:
reduces indices modulo 8, which matches pyIdx on [-8, 7]). -/
def regFin (i : Int) : Fin 8 := ⟨(i % 8).toNat, by omega⟩

/-- Machine state: the fields of CPU.__init__, plus the PRN output
channel. -/
structure CPU where
  ram : Fin 256 → Val
  reg : Fin 8 → Val
  pc : Int
  ir : Option Val
  mar : Int
  mdr : Option Val
  sp : Int
  out : List Val

/-- The state CPU.__init__ builds: zeroed ram and registers, except
reg[7] = 0xF3, and sp seeded from reg[7]. -/
def initCPU : CPU :=
  { ram := fun _ => .intV 0
    reg := fun i => if i = (7 : Fin 8) then .intV 243 else .intV 0
    pc := 0
    ir := none
    mar := 0
    mdr := none
    sp := 243
    out := [] }

/-- Pure view of memory at an address (the cell pyIdx would select for
in-range addresses). -/
def memAt (s : CPU) (a : Int) : Val := s.ram (addrFin a)

/-- Pure view of a register by integer index. -/
def regAt (s : CPU) (i : Int) : Val := s.reg (regFin i)

/-- CPU.ram_read: set mar to the address, read the cell into mdr and
return it. -/
def ram_read (a : Int) (s : CPU) : Except Err (Val × CPU) :=
  match pyIdx 256 a with
  | some i => .ok (s.ram i, { s with mar := a, mdr := some (s.ram i) })
  | none => .error .indexError

/-- CPU.ram_write: set mar to the address, mdr to the value, and store it. -/
def ram_write (a : Int) (v : Val) (s : CPU) : Except Err CPU :=
  match pyIdx 256 a with
  | some i => .ok { s with ram := Function.update s.ram i v, mar := a, mdr := some v }
  | none => .error .indexError

/-- Resolution of self.reg[x]: the operand must be an int (else TypeError)
and a valid index into the 8-slot register file (else IndexError). -/
def regIndex (v : Val) : Except Err (Fin 8) :=
  match asIdx v with
  | none => .error .typeError
  | some i =>
    match pyIdx 8 i with
    | none => .error .indexError
    | some a => .ok a

/-- CPU.alu: dispatch on the operation selector by Python equality; each
arithmetic branch indexes the register file with the raw operands and
stores the result back into the first register.  Division is Python true
division: ZeroDivisionError on a zero divisor, otherwise a float. -/
def alu (op reg_a reg_b : Val) (s : CPU) : Except Err CPU :=
  if toQ op = ((ADD : Int) : ℚ) then
    match regIndex reg_a with
    | .error e => .error e
    | .ok a =>
      match regIndex reg_b with
      | .error e => .error e
      | .ok b => .ok { s with reg := Function.update s.reg a (valAdd (s.reg a) (s.reg b)) }
  else if toQ op = ((SUB : Int) : ℚ) then
    match regIndex reg_a with
    | .error e => .error e
    | .ok a =>
      match regIndex reg_b with
      | .error e => .error e
      | .ok b => .ok { s with reg := Function.update s.reg a (valSub (s.reg a) (s.reg b)) }
  else if toQ op = ((MUL : Int) : ℚ) then
    match regIndex reg_a with
    | .error e => .error e
    | .ok a =>
      match regIndex reg_b with
      | .error e => .error e
      | .ok b => .ok { s with reg := Function.update s.reg a (valMul (s.reg a) (s.reg b)) }
  else if toQ op = ((DIV : Int) : ℚ) then
    match regIndex reg_a with
    | .error e => .error e
    | .ok a =>
      match regIndex reg_b with
      | .error e => .error e
      | .ok b =>
        if toQ (s.reg b) = 0 then .error .zeroDivisionError
        else .ok { s with reg := Function.update s.reg a (.floatV (toQ (s.reg a) / toQ (s.reg b))) }
  else .error .unsupportedOperation

/-- CPU.trace: reads the bytes at pc, pc+1 and pc+2 (and prints them,
which the model does not record); the reads set mar and mdr. -/
def trace (s0 : CPU) : Except Err CPU :=
  match ram_read s0.pc s0 with
  | .error e => .error e
  | .ok (_, s1) =>
    match ram_read (s1.pc + 1) s1 with
    | .error e => .error e
    | .ok (_, s2) =>
      match ram_read (s2.pc + 2) s2 with
      | .error e => .error e
      | .ok (_, s3) => .ok s3

/-- CPU.handle_ldi: read the register index at pc+1 and the value at pc+2,
then store the value into that register. -/
def handle_ldi (s0 : CPU) : Except Err CPU :=
  match ram_read (s0.pc + 1) s0 with
  | .error e => .error e
  | .ok (register, s1) =>
    match ram_read (s1.pc + 2) s1 with
    | .error e => .error e
    | .ok (value, s2) =>
      match regIndex register with
      | .error e => .error e
      | .ok i => .ok { s2 with reg := Function.update s2.reg i value }

/-- CPU.handle_prn: read the register index at pc+1 and print that
register's value. -/
def handle_prn (s0 : CPU) : Except Err CPU :=
  match ram_read (s0.pc + 1) s0 with
  | .error e => .error e
  | .ok (register, s1) =>
    match regIndex register with
    | .error e => .error e
    | .ok i => .ok { s1 with out := s1.out ++ [s1.reg i] }

/-- CPU.handle_push: decrement sp, read the register index at pc+1, and
write that register's value to memory at sp. -/
def handle_push (s0 : CPU) : Except Err CPU :=
  match ram_read (s0.pc + 1) { s0 with sp := s0.sp - 1 } with
  | .error e => .error e
  | .ok (register, s2) =>
    match regIndex register with
    | .error e => .error e
    | .ok i => ram_write s2.sp (s2.reg i) s2

/-- CPU.handle_pop: read memory at sp, read the register index at pc+1,
store the value into that register, then increment sp. -/
def handle_pop (s0 : CPU) : Except Err CPU :=
  match ram_read s0.sp s0 with
  | .error e => .error e
  | .ok (value, s1) =>
    match ram_read (s1.pc + 1) s1 with
    | .error e => .error e
    | .ok (register, s2) =>
      match regIndex register with
      | .error e => .error e
      | .ok i => .ok { s2 with reg := Function.update s2.reg i value, sp := s2.sp + 1 }

/-- Result of one iteration of the run loop's body: continue with a new
state, halt via sys.exit, or die with an exception. -/
inductive Outcome where
  | ok : CPU → Outcome
  | halt : CPU → Outcome
  | fault : Err → Outcome

/-- One fetch-decode-execute cycle of CPU.run: fetch at pc, latch ir,
decode the operand count from the top two bits, prefetch operands at pc+1
and pc+2, classify by bit 5, dispatch to the ALU or (after trace) through
the branch table, and finally advance pc by 1 + operand count.  handle_hlt
raises SystemExit, so the HLT branch halts before the advance; a missing
branch-table entry is a KeyError. -/
def step (s0 : CPU) : Outcome :=
  match ram_read s0.pc s0 with
  | .error e => .fault e
  | .ok (instruction, s1) =>
    match asIdx instruction with
    | none => .fault .typeError
    | some n =>
      let s2 : CPU := { s1 with ir := some instruction }
      let num_operands : Int := pyShr n 6
      match ram_read (s2.pc + 1) s2 with
      | .error e => .fault e
      | .ok (operand_a, s3) =>
        match ram_read (s3.pc + 2) s3 with
        | .error e => .fault e
        | .ok (operand_b, s4) =>
          if (pyShr n 5) % 2 ≠ 0 then
            match alu instruction operand_a operand_b s4 with
            | .error e => .fault e
            | .ok s5 => .ok { s5 with pc := s5.pc + (num_operands + 1) }
          else
            match trace s4 with
            | .error e => .fault e
            | .ok s5 =>
              if n = HLT then .halt s5
              else
                match
                  (if n = LDI then some (handle_ldi s5)
                   else if n = PRN then some (handle_prn s5)
                   else if n = PUSH then some (handle_push s5)
                   else if n = POP then some (handle_pop s5)
                   else none)
                with
                | none => .fault .keyError
                | some (.error e) => .fault e
                | some (.ok s6) => .ok { s6 with pc := s6.pc + (num_operands + 1) }

/-- Iterate step while it keeps returning ok; none on halt or fault. -/
def runSteps : Nat → CPU → Option CPU
  | 0, s => some s
  | n + 1, s =>
    match step s with
    | .ok t => runSteps n t
    | _ => none

/-- Result of CPU.run with a fuel bound on the number of cycles. -/
inductive RunOut where
  | halted : CPU → RunOut
  | fault : Err → RunOut
  | outOfFuel : CPU → RunOut

/-- CPU.run: loop the cycle until SystemExit (halt) or an exception, with
explicit fuel standing in for the unbounded while loop. -/
def run : Nat → CPU → RunOut
  | 0, s => .outOfFuel s
  | fuel + 1, s =>
    match step s with
    | .ok t => run fuel t
    | .halt t => .halted t
    | .fault e => .fault e

/-- Whether a cycle outcome is a normal continuation. -/
def Outcome.isOk : Outcome → Bool
  | .ok _ => true
  | _ => false

/-- The pc of a continuing outcome. -/
def Outcome.pcOf : Outcome → Option Int
  | .ok s => some s.pc
  | .halt s => some s.pc
  | .fault _ => none

/-- The sp of a continuing outcome. -/
def Outcome.spOf : Outcome → Option Int
  | .ok s => some s.sp
  | .halt s => some s.sp
  | .fault _ => none

/-- A register of a continuing outcome. -/
def Outcome.regOf : Outcome → Int → Option Val
  | .ok s, i => some (regAt s i)
  | .halt s, i => some (regAt s i)
  | .fault _, _ => none

/-- A memory cell of a continuing outcome. -/
def Outcome.memOf : Outcome → Int → Option Val
  | .ok s, a => some (memAt s a)
  | .halt s, a => some (memAt s a)
  | .fault _, _ => none

/-- The value a ram_read returned, if it succeeded. -/
def readOut : Except Err (Val × CPU) → Option Val
  | .ok (v, _) => some v
  | .error _ => none

/-- A register of a handler or ALU result, if it succeeded. -/
def okRegAt : Except Err CPU → Int → Option Val
  | .ok s, i => some (regAt s i)
  | .error _, _ => none

/-- A program image: bytes placed from address 0, the rest zeroed, as
CPU.load leaves memory. -/
def loadRam (l : List Int) : Fin 256 → Val :=
  fun i => if h : i.val < l.length then .intV (l.get ⟨i.val, h⟩) else .intV 0

/-- Concrete machine loaded with LDI R0, 8 followed by HLT. -/
def cpuW1 : CPU := { initCPU with ram := loadRam [130, 0, 8, 1] }

/-- Concrete machine whose register 0 holds 1. -/
def cpuC2 : CPU := { initCPU with reg := fun i => if i = (0 : Fin 8) then .intV 1 else .intV 0 }

/-- Concrete machine loaded with PUSH R0, PUSH R1, POP R2, POP R3, HLT,
with registers 0 and 1 holding 5 and 7. -/
def cpuW3 : CPU := { initCPU with ram := loadRam [69, 0, 69, 1, 70, 2, 70, 3, 1], reg := fun i => if i = (0 : Fin 8) then .intV 5 else if i = (1 : Fin 8) then .intV 7 else if i = (7 : Fin 8) then .intV 243 else .intV 0 }

/-- The push register sequence for the cpuW3 program. -/
def rW3 : Nat → Int := fun k => if k = 0 then 0 else 1

/-- The pop register sequence for the cpuW3 program. -/
def qW3 : Nat → Int := fun k => if k = 0 then 2 else 3

/-- Concrete machine whose top memory cell (address 255) holds 42. -/
def cpuC6 : CPU := { initCPU with ram := Function.update initCPU.ram (addrFin 255) (.intV 42) }

/-- Concrete machine loaded with the unregistered non-arithmetic opcode
0b10100100 = 164 (bit 5 set, selector not ADD, SUB, MUL or DIV). -/
def cpuW8 : CPU := { initCPU with ram := loadRam [164] }

/-- Concrete machine loaded with a single HLT. -/
def cpuW9 : CPU := { initCPU with ram := loadRam [1] }

/-- Concrete machine loaded with PUSH R0 while the stack pointer is 0. -/
def cpuW10 : CPU := { initCPU with ram := loadRam [69, 0, 1], sp := 0 }

/-- The machine state after a cycle's fetch, ir latch and operand
prefetch, when pc, pc+1 and pc+2 are all in bounds. -/
def postFetch (s : CPU) (n : Int) : CPU :=
  { s with ir := some (.intV n), mar := s.pc + 2, mdr := some (memAt s (s.pc + 2)) }

lemma pyIdx256_eq (a : Int) (h1 : -256 ≤ a) (h2 : a ≤ 255) :
    pyIdx 256 a = some (addrFin a) := by
  unfold pyIdx addrFin
  split_ifs with c1 c2
  · congr 1
    apply Fin.ext
    simp only
    omega
  · congr 1
    apply Fin.ext
    simp only
    omega
  · omega

lemma pyIdx256_none (a : Int) (h : a < -256 ∨ 255 < a) :
    pyIdx 256 a = none := by
  unfold pyIdx
  split_ifs with c1 c2
  · omega
  · omega
  · rfl

lemma pyIdx8_eq (i : Int) (h1 : -8 ≤ i) (h2 : i ≤ 7) :
    pyIdx 8 i = some (regFin i) := by
  unfold pyIdx regFin
  split_ifs with c1 c2
  · congr 1
    apply Fin.ext
    simp only
    omega
  · congr 1
    apply Fin.ext
    simp only
    omega
  · omega

lemma ram_read_ok (a : Int) (h1 : -256 ≤ a) (h2 : a ≤ 255) (s : CPU) :
    ram_read a s = .ok (s.ram (addrFin a), { s with mar := a, mdr := some (s.ram (addrFin a)) }) := by
  unfold ram_read
  rw [pyIdx256_eq a h1 h2]

lemma ram_read_err (a : Int) (h : a < -256 ∨ 255 < a) (s : CPU) :
    ram_read a s = .error .indexError := by
  unfold ram_read
  rw [pyIdx256_none a h]

lemma ram_write_ok (a : Int) (h1 : -256 ≤ a) (h2 : a ≤ 255) (v : Val) (s : CPU) :
    ram_write a v s =
      .ok { s with ram := Function.update s.ram (addrFin a) v, mar := a, mdr := some v } := by
  unfold ram_write
  rw [pyIdx256_eq a h1 h2]

lemma ram_write_err (a : Int) (h : a < -256 ∨ 255 < a) (v : Val) (s : CPU) :
    ram_write a v s = .error .indexError := by
  unfold ram_write
  rw [pyIdx256_none a h]

lemma regIndex_eq (i : Int) (h1 : -8 ≤ i) (h2 : i ≤ 7) :
    regIndex (.intV i) = .ok (regFin i) := by
  unfold regIndex asIdx
  simp only
  rw [pyIdx8_eq i h1 h2]

lemma step_dispatch (s : CPU) (n : Int)
    (hpc0 : 0 ≤ s.pc) (hpc2 : s.pc + 2 ≤ 255)
    (hins : memAt s s.pc = .intV n) :
    step s =
      (if (pyShr n 5) % 2 ≠ 0 then
         match alu (.intV n) (memAt s (s.pc + 1)) (memAt s (s.pc + 2)) (postFetch s n) with
         | .error e => .fault e
         | .ok s5 => .ok { s5 with pc := s5.pc + (pyShr n 6 + 1) }
       else if n = HLT then .halt (postFetch s n)
       else
         match
           (if n = LDI then some (handle_ldi (postFetch s n))
            else if n = PRN then some (handle_prn (postFetch s n))
            else if n = PUSH then some (handle_push (postFetch s n))
            else if n = POP then some (handle_pop (postFetch s n))
            else none)
         with
         | none => .fault .keyError
         | some (.error e) => .fault e
         | some (.ok s6) => .ok { s6 with pc := s6.pc + (pyShr n 6 + 1) }) := by
  have hm : s.ram (addrFin s.pc) = Val.intV n := hins
  unfold step postFetch
  rw [ram_read_ok s.pc (by omega) (by omega)]
  simp only [hm, asIdx]
  rw [ram_read_ok (s.pc + 1) (by omega) (by omega)]
  simp only []
  rw [ram_read_ok (s.pc + 2) (by omega) (by omega)]
  simp only [memAt]
  unfold trace
  rw [ram_read_ok s.pc (by omega) (by omega)]
  simp only [hm]
  rw [ram_read_ok (s.pc + 1) (by omega) (by omega)]
  simp only []
  rw [ram_read_ok (s.pc + 2) (by omega) (by omega)]


lemma step_hlt (s : CPU) (hpc0 : 0 ≤ s.pc) (hpc2 : s.pc + 2 ≤ 255)
    (hins : memAt s s.pc = .intV HLT) :
    step s = .halt (postFetch s HLT) := by
  rw [step_dispatch s HLT hpc0 hpc2 hins]
  rw [if_neg (by decide), if_pos rfl]

lemma step_ldi (s : CPU) (i : Int) (v : Val)
    (hpc0 : 0 ≤ s.pc) (hpc2 : s.pc + 2 ≤ 255)
    (hins : memAt s s.pc = .intV LDI)
    (hi : memAt s (s.pc + 1) = .intV i)
    (hv : memAt s (s.pc + 2) = v)
    (hi1 : -8 ≤ i) (hi2 : i ≤ 7) :
    step s = .ok { s with
      reg := Function.update s.reg (regFin i) v,
      pc := s.pc + 3,
      ir := some (.intV LDI),
      mar := s.pc + 2,
      mdr := some v } := by
  rw [step_dispatch s LDI hpc0 hpc2 hins]
  rw [if_neg (by decide), if_neg (by decide), if_pos rfl]
  unfold handle_ldi postFetch
  simp only []
  rw [ram_read_ok (s.pc + 1) (by omega) (by omega)]
  simp only []
  rw [ram_read_ok (s.pc + 2) (by omega) (by omega)]
  simp only [memAt] at hi hv
  simp only [hi, hv]
  rw [regIndex_eq i hi1 hi2]
  simp only []
  norm_num [LDI]
  decide

lemma step_push (s : CPU) (rr : Int)
    (hpc0 : 0 ≤ s.pc) (hpc2 : s.pc + 2 ≤ 255)
    (hsp1 : -255 ≤ s.sp) (hsp2 : s.sp ≤ 256)
    (hins : memAt s s.pc = .intV PUSH)
    (hr : memAt s (s.pc + 1) = .intV rr)
    (hr1 : -8 ≤ rr) (hr2 : rr ≤ 7) :
    step s = .ok { s with
      ram := Function.update s.ram (addrFin (s.sp - 1)) (regAt s rr),
      sp := s.sp - 1,
      pc := s.pc + 2,
      ir := some (.intV PUSH),
      mar := s.sp - 1,
      mdr := some (regAt s rr) } := by
  rw [step_dispatch s PUSH hpc0 hpc2 hins]
  rw [if_neg (by decide), if_neg (by decide), if_neg (by decide), if_neg (by decide),
    if_pos rfl]
  unfold handle_push postFetch
  simp only []
  rw [ram_read_ok (s.pc + 1) (by omega) (by omega)]
  simp only [memAt] at hr
  simp only [hr]
  rw [regIndex_eq rr hr1 hr2]
  simp only []
  rw [ram_write_ok (s.sp - 1) (by omega) (by omega)]
  simp only [regAt]
  norm_num [PUSH]
  decide

lemma step_pop (s : CPU) (rr : Int)
    (hpc0 : 0 ≤ s.pc) (hpc2 : s.pc + 2 ≤ 255)
    (hsp1 : -256 ≤ s.sp) (hsp2 : s.sp ≤ 255)
    (hins : memAt s s.pc = .intV POP)
    (hr : memAt s (s.pc + 1) = .intV rr)
    (hr1 : -8 ≤ rr) (hr2 : rr ≤ 7) :
    step s = .ok { s with
      reg := Function.update s.reg (regFin rr) (memAt s s.sp),
      sp := s.sp + 1,
      pc := s.pc + 2,
      ir := some (.intV POP),
      mar := s.pc + 1,
      mdr := some (.intV rr) } := by
  rw [step_dispatch s POP hpc0 hpc2 hins]
  rw [if_neg (by decide), if_neg (by decide), if_neg (by decide), if_neg (by decide),
    if_neg (by decide), if_pos rfl]
  unfold handle_pop postFetch
  simp only []
  rw [ram_read_ok s.sp (by omega) (by omega)]
  simp only []
  rw [ram_read_ok (s.pc + 1) (by omega) (by omega)]
  simp only [memAt] at hr
  simp only [hr]
  rw [regIndex_eq rr hr1 hr2]
  simp only [memAt]
  norm_num [POP]
  decide

lemma pyIdx256_some_inv (a : Int) (i : Fin 256) (h : pyIdx 256 a = some i) :
    -256 ≤ a ∧ a ≤ 255 ∧ i = addrFin a := by
  unfold pyIdx at h
  split_ifs at h with c1 c2
  · refine ⟨by omega, by omega, ?_⟩
    cases h
    unfold addrFin
    apply Fin.ext
    simp only
    omega
  · refine ⟨by omega, by omega, ?_⟩
    cases h
    unfold addrFin
    apply Fin.ext
    simp only
    omega

lemma ram_read_ok_inv (a : Int) (u : CPU) (v : Val) (w : CPU)
    (h : ram_read a u = .ok (v, w)) :
    v = u.ram (addrFin a) ∧ w = { u with mar := a, mdr := some v } ∧ -256 ≤ a ∧ a ≤ 255 := by
  unfold ram_read at h
  cases hp : pyIdx 256 a with
  | none => rw [hp] at h; simp at h
  | some i =>
    rw [hp] at h
    obtain ⟨h1, h2, h3⟩ := pyIdx256_some_inv a i hp
    simp only [Except.ok.injEq, Prod.mk.injEq] at h
    obtain ⟨hv, hw⟩ := h
    subst h3
    exact ⟨hv.symm, by rw [← hw, hv], h1, h2⟩

lemma ram_write_ok_inv (a : Int) (v : Val) (u w : CPU)
    (h : ram_write a v u = .ok w) :
    w = { u with ram := Function.update u.ram (addrFin a) v, mar := a, mdr := some v } := by
  unfold ram_write at h
  cases hp : pyIdx 256 a with
  | none => rw [hp] at h; simp at h
  | some i =>
    rw [hp] at h
    obtain ⟨h1, h2, h3⟩ := pyIdx256_some_inv a i hp
    subst h3
    simp only [Except.ok.injEq] at h
    exact h.symm

lemma trace_pc (u w : CPU) (h : trace u = .ok w) : w.pc = u.pc := by
  unfold trace at h
  cases h1 : ram_read u.pc u with
  | error e => rw [h1] at h; simp at h
  | ok p =>
    obtain ⟨v1, u1⟩ := p
    rw [h1] at h
    simp only [] at h
    obtain ⟨-, hu1, -, -⟩ := ram_read_ok_inv _ _ _ _ h1
    cases h2 : ram_read (u1.pc + 1) u1 with
    | error e => rw [h2] at h; simp at h
    | ok p =>
      obtain ⟨v2, u2⟩ := p
      rw [h2] at h
      simp only [] at h
      obtain ⟨-, hu2, -, -⟩ := ram_read_ok_inv _ _ _ _ h2
      cases h3 : ram_read (u2.pc + 2) u2 with
      | error e => rw [h3] at h; simp at h
      | ok p =>
        obtain ⟨v3, u3⟩ := p
        rw [h3] at h
        simp only [Except.ok.injEq] at h
        obtain ⟨-, hu3, -, -⟩ := ram_read_ok_inv _ _ _ _ h3
        subst hu1 hu2 hu3
        rw [← h]

lemma handle_ldi_pc (u w : CPU) (h : handle_ldi u = .ok w) : w.pc = u.pc := by
  unfold handle_ldi at h
  cases h1 : ram_read (u.pc + 1) u with
  | error e => rw [h1] at h; simp at h
  | ok p =>
    obtain ⟨register, u1⟩ := p
    rw [h1] at h
    simp only [] at h
    obtain ⟨-, hu1, -, -⟩ := ram_read_ok_inv _ _ _ _ h1
    cases h2 : ram_read (u1.pc + 2) u1 with
    | error e => rw [h2] at h; simp at h
    | ok p =>
      obtain ⟨value, u2⟩ := p
      rw [h2] at h
      simp only [] at h
      obtain ⟨-, hu2, -, -⟩ := ram_read_ok_inv _ _ _ _ h2
      cases h3 : regIndex register with
      | error e => rw [h3] at h; simp at h
      | ok i =>
        rw [h3] at h
        simp only [Except.ok.injEq] at h
        subst hu1 hu2
        rw [← h]

lemma handle_prn_pc (u w : CPU) (h : handle_prn u = .ok w) : w.pc = u.pc := by
  unfold handle_prn at h
  cases h1 : ram_read (u.pc + 1) u with
  | error e => rw [h1] at h; simp at h
  | ok p =>
    obtain ⟨register, u1⟩ := p
    rw [h1] at h
    simp only [] at h
    obtain ⟨-, hu1, -, -⟩ := ram_read_ok_inv _ _ _ _ h1
    cases h3 : regIndex register with
    | error e => rw [h3] at h; simp at h
    | ok i =>
      rw [h3] at h
      simp only [Except.ok.injEq] at h
      subst hu1
      rw [← h]

lemma handle_push_pc (u w : CPU) (h : handle_push u = .ok w) : w.pc = u.pc := by
  unfold handle_push at h
  cases h1 : ram_read (u.pc + 1) { u with sp := u.sp - 1 } with
  | error e => rw [h1] at h; simp at h
  | ok p =>
    obtain ⟨register, u1⟩ := p
    rw [h1] at h
    simp only [] at h
    obtain ⟨-, hu1, -, -⟩ := ram_read_ok_inv _ _ _ _ h1
    cases h3 : regIndex register with
    | error e => rw [h3] at h; simp at h
    | ok i =>
      rw [h3] at h
      have hw := ram_write_ok_inv _ _ _ _ h
      subst hu1
      rw [hw]

lemma handle_pop_pc (u w : CPU) (h : handle_pop u = .ok w) : w.pc = u.pc := by
  unfold handle_pop at h
  cases h1 : ram_read u.sp u with
  | error e => rw [h1] at h; simp at h
  | ok p =>
    obtain ⟨value, u1⟩ := p
    rw [h1] at h
    simp only [] at h
    obtain ⟨-, hu1, -, -⟩ := ram_read_ok_inv _ _ _ _ h1
    cases h2 : ram_read (u1.pc + 1) u1 with
    | error e => rw [h2] at h; simp at h
    | ok p =>
      obtain ⟨register, u2⟩ := p
      rw [h2] at h
      simp only [] at h
      obtain ⟨-, hu2, -, -⟩ := ram_read_ok_inv _ _ _ _ h2
      cases h3 : regIndex register with
      | error e => rw [h3] at h; simp at h
      | ok i =>
        rw [h3] at h
        simp only [Except.ok.injEq] at h
        subst hu1 hu2
        rw [← h]

lemma alu_ok_inv (op a b : Val) (u w : CPU) (h : alu op a b u = .ok w) :
    w.pc = u.pc ∧ w.sp = u.sp ∧ w.out = u.out ∧ w.ram = u.ram ∧
      (toQ op = ((ADD : Int) : ℚ) ∨ toQ op = ((SUB : Int) : ℚ) ∨
       toQ op = ((MUL : Int) : ℚ) ∨ toQ op = ((DIV : Int) : ℚ)) := by
  unfold alu at h
  split_ifs at h with c1 c2 c3 c4
  · cases hra : regIndex a with
    | error e => rw [hra] at h; simp at h
    | ok ra =>
      rw [hra] at h
      cases hrb : regIndex b with
      | error e => rw [hrb] at h; simp at h
      | ok rb =>
        rw [hrb] at h
        simp only [Except.ok.injEq] at h
        subst h
        exact ⟨rfl, rfl, rfl, rfl, Or.inl c1⟩
  · cases hra : regIndex a with
    | error e => rw [hra] at h; simp at h
    | ok ra =>
      rw [hra] at h
      cases hrb : regIndex b with
      | error e => rw [hrb] at h; simp at h
      | ok rb =>
        rw [hrb] at h
        simp only [Except.ok.injEq] at h
        subst h
        exact ⟨rfl, rfl, rfl, rfl, Or.inr (Or.inl c2)⟩
  · cases hra : regIndex a with
    | error e => rw [hra] at h; simp at h
    | ok ra =>
      rw [hra] at h
      cases hrb : regIndex b with
      | error e => rw [hrb] at h; simp at h
      | ok rb =>
        rw [hrb] at h
        simp only [Except.ok.injEq] at h
        subst h
        exact ⟨rfl, rfl, rfl, rfl, Or.inr (Or.inr (Or.inl c3))⟩
  · cases hra : regIndex a with
    | error e => rw [hra] at h; simp at h
    | ok ra =>
      rw [hra] at h
      cases hrb : regIndex b with
      | error e => rw [hrb] at h; simp at h
      | ok rb =>
        rw [hrb] at h
        simp only [] at h
        split_ifs at h with c5
        simp only [Except.ok.injEq] at h
        subst h
        exact ⟨rfl, rfl, rfl, rfl, Or.inr (Or.inr (Or.inr c4))⟩

lemma step_ok_pc (s t : CPU) (h : step s = .ok t) :
    ∃ n, memAt s s.pc = .intV n ∧ t.pc = s.pc + (pyShr n 6 + 1) ∧
      (pyShr n 6 = 0 ∨ pyShr n 6 = 1 ∨ pyShr n 6 = 2) := by
  unfold step at h
  split at h
  next e heq => simp at h
  next instruction s1 heq =>
    obtain ⟨hval, hs1, -, -⟩ := ram_read_ok_inv _ _ _ _ heq
    split at h
    next hax => simp at h
    next n hax =>
      have hins : instruction = Val.intV n := by
        cases instruction with
        | intV m => simp only [asIdx, Option.some.injEq] at hax; rw [hax]
        | floatV q => simp [asIdx] at hax
      subst hins
      subst hs1
      refine ⟨n, hval.symm, ?_⟩
      split at h
      next hb =>
        simp only [] at h
        split at h
        next e heq2 => simp at h
        next operand_a s3 heq2 =>
          obtain ⟨-, hs3, -, -⟩ := ram_read_ok_inv _ _ _ _ heq2
          subst hs3
          split at h
          next e heq3 => simp at h
          next operand_b s4 heq3 =>
            obtain ⟨-, hs4, -, -⟩ := ram_read_ok_inv _ _ _ _ heq3
            subst hs4
            split at h
            next e heq4 => simp at h
            next s5 heq4 =>
              obtain ⟨hpc5, -, -, -, hop⟩ := alu_ok_inv _ _ _ _ _ heq4
              simp only [Outcome.ok.injEq] at h
              subst h
              constructor
              · simp [hpc5]
              · have hn : n = 160 ∨ n = 161 ∨ n = 162 ∨ n = 163 := by
                  simp only [toQ, ADD, SUB, MUL, DIV] at hop
                  rcases hop with h1 | h1 | h1 | h1
                  · exact Or.inl (by exact_mod_cast h1)
                  · exact Or.inr (Or.inl (by exact_mod_cast h1))
                  · exact Or.inr (Or.inr (Or.inl (by exact_mod_cast h1)))
                  · exact Or.inr (Or.inr (Or.inr (by exact_mod_cast h1)))
                rcases hn with h1 | h1 | h1 | h1 <;> subst h1 <;> decide
      next hb =>
        simp only [] at h
        split at h
        next e heq2 => simp at h
        next operand_a s3 heq2 =>
          obtain ⟨-, hs3, -, -⟩ := ram_read_ok_inv _ _ _ _ heq2
          subst hs3
          split at h
          next e heq3 => simp at h
          next operand_b s4 heq3 =>
            obtain ⟨-, hs4, -, -⟩ := ram_read_ok_inv _ _ _ _ heq3
            subst hs4
            split at h
            next e heq4 => simp at h
            next s5 heq4 =>
              have hpc5 := trace_pc _ _ heq4
              by_cases c0 : n = HLT
              · rw [if_pos c0] at h
                simp at h
              · rw [if_neg c0] at h
                by_cases c1 : n = LDI
                · rw [if_pos c1] at h
                  cases hld : handle_ldi s5 with
                  | error e => rw [hld] at h; simp at h
                  | ok s6 =>
                    rw [hld] at h
                    simp only [Outcome.ok.injEq] at h
                    subst h
                    refine ⟨by simp [handle_ldi_pc _ _ hld, hpc5], ?_⟩
                    rw [c1]
                    decide
                · rw [if_neg c1] at h
                  by_cases c2 : n = PRN
                  · rw [if_pos c2] at h
                    cases hld : handle_prn s5 with
                    | error e => rw [hld] at h; simp at h
                    | ok s6 =>
                      rw [hld] at h
                      simp only [Outcome.ok.injEq] at h
                      subst h
                      refine ⟨by simp [handle_prn_pc _ _ hld, hpc5], ?_⟩
                      rw [c2]
                      decide
                  · rw [if_neg c2] at h
                    by_cases c3 : n = PUSH
                    · rw [if_pos c3] at h
                      cases hld : handle_push s5 with
                      | error e => rw [hld] at h; simp at h
                      | ok s6 =>
                        rw [hld] at h
                        simp only [Outcome.ok.injEq] at h
                        subst h
                        refine ⟨by simp [handle_push_pc _ _ hld, hpc5], ?_⟩
                        rw [c3]
                        decide
                    · rw [if_neg c3] at h
                      by_cases c4 : n = POP
                      · rw [if_pos c4] at h
                        cases hld : handle_pop s5 with
                        | error e => rw [hld] at h; simp at h
                        | ok s6 =>
                          rw [hld] at h
                          simp only [Outcome.ok.injEq] at h
                          subst h
                          refine ⟨by simp [handle_pop_pc _ _ hld, hpc5], ?_⟩
                          rw [c4]
                          decide
                      · rw [if_neg c4] at h
                        simp at h

lemma toQ_intV_ne (m c : Int) (h : m ≠ c) : toQ (.intV m) ≠ ((c : Int) : ℚ) := by
  simp only [toQ]
  exact_mod_cast h

lemma step_unknown (s : CPU) (n : Int)
    (hpc0 : 0 ≤ s.pc) (hpc2 : s.pc + 2 ≤ 255)
    (hins : memAt s s.pc = .intV n)
    (hbit : pyShr n 5 % 2 = 0)
    (h0 : n ≠ HLT) (h1 : n ≠ LDI) (h2 : n ≠ PRN) (h3 : n ≠ PUSH) (h4 : n ≠ POP) :
    step s = .fault .keyError := by
  rw [step_dispatch s n hpc0 hpc2 hins]
  rw [if_neg (fun hc => hc hbit), if_neg h0, if_neg h1, if_neg h2, if_neg h3, if_neg h4]

lemma alu_unsupported (op a b : Val) (u : CPU)
    (h1 : toQ op ≠ ((ADD : Int) : ℚ)) (h2 : toQ op ≠ ((SUB : Int) : ℚ))
    (h3 : toQ op ≠ ((MUL : Int) : ℚ)) (h4 : toQ op ≠ ((DIV : Int) : ℚ)) :
    alu op a b u = .error .unsupportedOperation := by
  unfold alu
  rw [if_neg h1, if_neg h2, if_neg h3, if_neg h4]

lemma step_unsupported (s : CPU) (n : Int)
    (hpc0 : 0 ≤ s.pc) (hpc2 : s.pc + 2 ≤ 255)
    (hins : memAt s s.pc = .intV n)
    (hbit : pyShr n 5 % 2 ≠ 0)
    (h1 : n ≠ ADD) (h2 : n ≠ SUB) (h3 : n ≠ MUL) (h4 : n ≠ DIV) :
    step s = .fault .unsupportedOperation := by
  rw [step_dispatch s n hpc0 hpc2 hins]
  rw [if_pos hbit]
  rw [alu_unsupported _ _ _ _ (toQ_intV_ne n ADD h1) (toQ_intV_ne n SUB h2)
    (toQ_intV_ne n MUL h3) (toQ_intV_ne n DIV h4)]

lemma alu_add (u : CPU) (a b : Int)
    (ha1 : -8 ≤ a) (ha2 : a ≤ 7) (hb1 : -8 ≤ b) (hb2 : b ≤ 7) :
    alu (.intV ADD) (.intV a) (.intV b) u =
      .ok { u with reg := Function.update u.reg (regFin a) (valAdd (u.reg (regFin a)) (u.reg (regFin b))) } := by
  unfold alu
  rw [if_pos (by decide), regIndex_eq a ha1 ha2, regIndex_eq b hb1 hb2]

lemma alu_sub (u : CPU) (a b : Int)
    (ha1 : -8 ≤ a) (ha2 : a ≤ 7) (hb1 : -8 ≤ b) (hb2 : b ≤ 7) :
    alu (.intV SUB) (.intV a) (.intV b) u =
      .ok { u with reg := Function.update u.reg (regFin a) (valSub (u.reg (regFin a)) (u.reg (regFin b))) } := by
  unfold alu
  rw [if_neg (by decide), if_pos (by decide), regIndex_eq a ha1 ha2, regIndex_eq b hb1 hb2]

lemma alu_mul (u : CPU) (a b : Int)
    (ha1 : -8 ≤ a) (ha2 : a ≤ 7) (hb1 : -8 ≤ b) (hb2 : b ≤ 7) :
    alu (.intV MUL) (.intV a) (.intV b) u =
      .ok { u with reg := Function.update u.reg (regFin a) (valMul (u.reg (regFin a)) (u.reg (regFin b))) } := by
  unfold alu
  rw [if_neg (by decide), if_neg (by decide), if_pos (by decide), regIndex_eq a ha1 ha2,
    regIndex_eq b hb1 hb2]

lemma alu_div_zero (u : CPU) (a b : Int)
    (ha1 : -8 ≤ a) (ha2 : a ≤ 7) (hb1 : -8 ≤ b) (hb2 : b ≤ 7)
    (h0 : toQ (u.reg (regFin b)) = 0) :
    alu (.intV DIV) (.intV a) (.intV b) u = .error .zeroDivisionError := by
  unfold alu
  rw [if_neg (by decide), if_neg (by decide), if_neg (by decide), if_pos (by decide),
    regIndex_eq a ha1 ha2, regIndex_eq b hb1 hb2]
  simp only []
  rw [if_pos h0]

lemma runSteps_split (m k : Nat) (s : CPU) :
    runSteps (m + k) s = (runSteps m s).bind (runSteps k) := by
  induction m generalizing s with
  | zero => simp [runSteps]
  | succ m ih =>
    rw [Nat.succ_add]
    cases hs : step s with
    | ok t =>
      have e1 : runSteps (m + k + 1) s = runSteps (m + k) t := by simp [runSteps, hs]
      have e2 : runSteps (m + 1) s = runSteps m t := by simp [runSteps, hs]
      rw [e1, e2, ih]
    | halt t =>
      have e1 : runSteps (m + k + 1) s = none := by simp [runSteps, hs]
      have e2 : runSteps (m + 1) s = none := by simp [runSteps, hs]
      rw [e1, e2]
      rfl
    | fault e =>
      have e1 : runSteps (m + k + 1) s = none := by simp [runSteps, hs]
      have e2 : runSteps (m + 1) s = none := by simp [runSteps, hs]
      rw [e1, e2]
      rfl

lemma runSteps_one (s t : CPU) (h : step s = .ok t) : runSteps 1 s = some t := by
  simp [runSteps, h]

lemma addrFin_inj (x y : Int) (hx1 : 0 ≤ x) (hx2 : x ≤ 255)
    (hy1 : 0 ≤ y) (hy2 : y ≤ 255) (h : addrFin x = addrFin y) : x = y := by
  have h2 : (x % 256).toNat = (y % 256).toNat := by
    have h3 := congrArg Fin.val h
    simpa [addrFin] using h3
  omega

lemma push_phase (s0 : CPU) (N : Nat) (r : Nat → Int)
    (hpc0 : 0 ≤ s0.pc) (hpcN : s0.pc + 4 * (N : Int) ≤ 255)
    (hspN : (N : Int) ≤ s0.sp) (hsp256 : s0.sp ≤ 256)
    (hdisj : ∀ m : Nat, m < N →
      s0.sp - 1 - (m : Int) < s0.pc ∨ s0.pc + 4 * (N : Int) < s0.sp - 1 - (m : Int))
    (hr : ∀ m : Nat, m < N → 0 ≤ r m ∧ r m ≤ 7)
    (hprog : ∀ m : Nat, m < N →
      memAt s0 (s0.pc + 2 * (m : Int)) = .intV PUSH ∧
      memAt s0 (s0.pc + 2 * (m : Int) + 1) = .intV (r m)) :
    ∀ j : Nat, j ≤ N → ∃ sj : CPU, runSteps j s0 = some sj ∧
      sj.pc = s0.pc + 2 * (j : Int) ∧ sj.sp = s0.sp - (j : Int) ∧
      sj.reg = s0.reg ∧ sj.out = s0.out ∧
      (∀ a : Fin 256, (∀ m : Nat, m < j → a ≠ addrFin (s0.sp - 1 - (m : Int))) →
        sj.ram a = s0.ram a) ∧
      (∀ m : Nat, m < j → sj.ram (addrFin (s0.sp - 1 - (m : Int))) = regAt s0 (r m)) := by
  intro j
  induction j with
  | zero =>
    intro hj
    exact ⟨s0, rfl, by simp, by simp, rfl, rfl, fun a ha => rfl,
      fun m hm => absurd hm (by omega)⟩
  | succ j ih =>
    intro hj
    obtain ⟨sj, hrun, hpc, hsp, hreg, hout, hframe, hstack⟩ := ih (by omega)
    have hcell : ∀ x : Int, s0.pc ≤ x → x ≤ s0.pc + 4 * (N : Int) → memAt sj x = memAt s0 x := by
      intro x hx1 hx2
      unfold memAt
      apply hframe
      intro m hm hEq
      have hmN : m < N := by omega
      have hd := hdisj m hmN
      have hx := addrFin_inj x (s0.sp - 1 - (m : Int)) (by omega) (by omega)
        (by omega) (by omega) hEq
      omega
    have hpcj : sj.pc = s0.pc + 2 * (j : Int) := hpc
    have hins : memAt sj sj.pc = .intV PUSH := by
      rw [hpcj, hcell _ (by omega) (by omega)]
      exact (hprog j (by omega)).1
    have hop : memAt sj (sj.pc + 1) = .intV (r j) := by
      rw [hpcj, hcell _ (by omega) (by omega)]
      exact (hprog j (by omega)).2
    have hrj := hr j (by omega)
    have hpush := step_push sj (r j) (by omega) (by omega) (by omega) (by omega)
      hins hop (by omega) (by omega)
    refine ⟨{ sj with ram := Function.update sj.ram (addrFin (sj.sp - 1)) (regAt sj (r j)), sp := sj.sp - 1, pc := sj.pc + 2, ir := some (.intV PUSH), mar := sj.sp - 1, mdr := some (regAt sj (r j)) }, ?_, ?_, ?_, ?_, ?_, ?_, ?_⟩
    · rw [runSteps_split j 1 s0, hrun]
      exact runSteps_one _ _ hpush
    · simp only []
      push_cast
      omega
    · simp only []
      push_cast
      omega
    · simp only [hreg]
    · simp only [hout]
    · intro a ha
      simp only []
      have hnej : a ≠ addrFin (sj.sp - 1) := by
        have h1 : sj.sp - 1 = s0.sp - 1 - (j : Int) := by omega
        rw [h1]
        exact ha j (by omega)
      rw [Function.update_noteq hnej]
      exact hframe a (fun m hm => ha m (by omega))
    · intro m hm
      simp only []
      by_cases hmj : m = j
      · subst hmj
        have h1 : sj.sp - 1 = s0.sp - 1 - (m : Int) := by omega
        rw [← h1, Function.update_same]
        unfold regAt
        rw [hreg]
      · have hne : addrFin (s0.sp - 1 - (m : Int)) ≠ addrFin (sj.sp - 1) := by
          intro hEq
          have hx := addrFin_inj (s0.sp - 1 - (m : Int)) (sj.sp - 1) (by omega) (by omega)
            (by omega) (by omega) hEq
          omega
        rw [Function.update_noteq hne]
        exact hstack m (by omega)

lemma pop_phase (s0 : CPU) (N : Nat) (r q : Nat → Int)
    (hpc0 : 0 ≤ s0.pc) (hpcN : s0.pc + 4 * (N : Int) ≤ 255)
    (hspN : (N : Int) ≤ s0.sp) (hsp256 : s0.sp ≤ 256)
    (hdisj : ∀ m : Nat, m < N →
      s0.sp - 1 - (m : Int) < s0.pc ∨ s0.pc + 4 * (N : Int) < s0.sp - 1 - (m : Int))
    (hr : ∀ m : Nat, m < N → 0 ≤ r m ∧ r m ≤ 7)
    (hq : ∀ m : Nat, m < N → 0 ≤ q m ∧ q m ≤ 7)
    (hprog : ∀ m : Nat, m < N →
      memAt s0 (s0.pc + 2 * (m : Int)) = .intV PUSH ∧
      memAt s0 (s0.pc + 2 * (m : Int) + 1) = .intV (r m))
    (hprog2 : ∀ m : Nat, m < N →
      memAt s0 (s0.pc + 2 * (N : Int) + 2 * (m : Int)) = .intV POP ∧
      memAt s0 (s0.pc + 2 * (N : Int) + 2 * (m : Int) + 1) = .intV (q m)) :
    ∀ k : Nat, k ≤ N → ∃ t : CPU, runSteps (N + k) s0 = some t ∧
      t.pc = s0.pc + 2 * (N : Int) + 2 * (k : Int) ∧
      t.sp = s0.sp - (N : Int) + (k : Int) ∧ t.out = s0.out ∧
      (∀ a : Fin 256, (∀ m : Nat, m < N → a ≠ addrFin (s0.sp - 1 - (m : Int))) →
        t.ram a = s0.ram a) ∧
      (∀ m : Nat, m < N → t.ram (addrFin (s0.sp - 1 - (m : Int))) = regAt s0 (r m)) ∧
      (∀ m : Nat, k = m + 1 → t.reg (regFin (q m)) = regAt s0 (r (N - 1 - m))) := by
  intro k
  induction k with
  | zero =>
    intro hk
    obtain ⟨sN, hrun, hpc, hsp, hreg, hout, hframe, hstack⟩ :=
      push_phase s0 N r hpc0 hpcN hspN hsp256 hdisj hr hprog N (le_refl N)
    exact ⟨sN, by simpa using hrun, by push_cast; omega, by push_cast; omega, hout,
      hframe, hstack, fun m hm => absurd hm (by omega)⟩
  | succ k ih =>
    intro hk
    obtain ⟨tk, hrun, hpc, hsp, hout, hframe, hstack, hlast⟩ := ih (by omega)
    have hcell : ∀ x : Int, s0.pc ≤ x → x ≤ s0.pc + 4 * (N : Int) → memAt tk x = memAt s0 x := by
      intro x hx1 hx2
      unfold memAt
      apply hframe
      intro m hm hEq
      have hd := hdisj m hm
      have hx := addrFin_inj x (s0.sp - 1 - (m : Int)) (by omega) (by omega)
        (by omega) (by omega) hEq
      omega
    have hins : memAt tk tk.pc = .intV POP := by
      rw [hpc, hcell _ (by omega) (by omega)]
      exact (hprog2 k (by omega)).1
    have hop : memAt tk (tk.pc + 1) = .intV (q k) := by
      rw [hpc, hcell _ (by omega) (by omega)]
      exact (hprog2 k (by omega)).2
    have hqk := hq k (by omega)
    have hpop := step_pop tk (q k) (by omega) (by omega) (by omega) (by omega)
      hins hop (by omega) (by omega)
    refine ⟨{ tk with reg := Function.update tk.reg (regFin (q k)) (memAt tk tk.sp), sp := tk.sp + 1, pc := tk.pc + 2, ir := some (.intV POP), mar := tk.pc + 1, mdr := some (.intV (q k)) }, ?_, ?_, ?_, ?_, ?_, ?_, ?_⟩
    · rw [show N + (k + 1) = N + k + 1 by omega, runSteps_split (N + k) 1 s0, hrun]
      exact runSteps_one _ _ hpop
    · simp only []
      push_cast
      omega
    · simp only []
      push_cast
      omega
    · simp only [hout]
    · intro a ha
      simp only []
      exact hframe a ha
    · intro m hm
      simp only []
      exact hstack m hm
    · intro m hm
      have hmk : m = k := by omega
      subst hmk
      simp only [Function.update_same]
      have haddr : tk.sp = s0.sp - 1 - ((N - 1 - m : Nat) : Int) := by
        have hc : ((N - 1 - m : Nat) : Int) = (N : Int) - 1 - (m : Int) := by omega
        rw [hc]
        omega
      unfold memAt
      rw [haddr]
      exact hstack (N - 1 - m) (by omega)


lemma regFin_inj (x y : Int) (hx1 : 0 ≤ x) (hx2 : x ≤ 7)
    (hy1 : 0 ≤ y) (hy2 : y ≤ 7) (h : regFin x = regFin y) : x = y := by
  have h2 : (x % 8).toNat = (y % 8).toNat := by
    have h3 := congrArg Fin.val h
    simpa [regFin] using h3
  omega

lemma addrFin_shift (a : Int) : addrFin (a + 256) = addrFin a := by
  unfold addrFin
  apply Fin.ext
  simp only
  omega

lemma exists_ok_of_isOk (o : Outcome) (h : o.isOk = true) : ∃ t, o = .ok t := by
  cases o with
  | ok t => exact ⟨t, rfl⟩
  | halt t => simp [Outcome.isOk] at h
  | fault e => simp [Outcome.isOk] at h

/-- C1: after any non-faulting, non-halting fetch-decode-execute cycle the
program counter equals its pre-cycle value plus 1 plus the instruction's
decoded operand count, where the operand count is the value of the
instruction byte's two most-significant bits and lies in 0, 1, 2; the
advancement happens after every dispatch, the arithmetic dispatch
included. -/
theorem claim1_pc_advance (s t : CPU) (h : step s = .ok t) :
    ∃ n : Int, memAt s s.pc = .intV n ∧ t.pc = s.pc + (pyShr n 6 + 1) ∧
      (pyShr n 6 = 0 ∨ pyShr n 6 = 1 ∨ pyShr n 6 = 2) :=
  step_ok_pc s t h

/-- C1 witness: the cycle executing LDI R0, 8 on a concrete machine. -/
theorem claim1_witness :
    ∃ t, step cpuW1 = .ok t ∧ ∃ n : Int, memAt cpuW1 cpuW1.pc = .intV n ∧
      t.pc = cpuW1.pc + (pyShr n 6 + 1) ∧
      (pyShr n 6 = 0 ∨ pyShr n 6 = 1 ∨ pyShr n 6 = 2) := by
  obtain ⟨t, ht⟩ := exists_ok_of_isOk (step cpuW1) (by decide)
  exact ⟨t, ht, claim1_pc_advance cpuW1 t ht⟩

/-- C2, amended: for register indices a and b, an ADD, SUB or MUL stores
into register a the sum, difference or product of the pre-instruction
values of registers a and b, and, provided a ≠ b, does not mutate
register b.  The proviso a ≠ b is forced by the counterexample below: the
original claim quantified over all pairs, but when a = b the store into a
is a mutation of b. -/
theorem claim2_alu_arithmetic (u : CPU) (a b : Int)
    (ha1 : 0 ≤ a) (ha2 : a ≤ 7) (hb1 : 0 ≤ b) (hb2 : b ≤ 7) :
    (∃ u', alu (.intV ADD) (.intV a) (.intV b) u = .ok u' ∧
      regAt u' a = valAdd (regAt u a) (regAt u b) ∧
      (a ≠ b → regAt u' b = regAt u b)) ∧
    (∃ u', alu (.intV SUB) (.intV a) (.intV b) u = .ok u' ∧
      regAt u' a = valSub (regAt u a) (regAt u b) ∧
      (a ≠ b → regAt u' b = regAt u b)) ∧
    (∃ u', alu (.intV MUL) (.intV a) (.intV b) u = .ok u' ∧
      regAt u' a = valMul (regAt u a) (regAt u b) ∧
      (a ≠ b → regAt u' b = regAt u b)) := by
  have hbne : a ≠ b → regFin b ≠ regFin a := by
    intro hne hEq
    exact hne (regFin_inj a b ha1 ha2 hb1 hb2 hEq.symm)
  refine ⟨⟨_, alu_add u a b (by omega) (by omega) (by omega) (by omega), ?_, ?_⟩,
    ⟨_, alu_sub u a b (by omega) (by omega) (by omega) (by omega), ?_, ?_⟩,
    ⟨_, alu_mul u a b (by omega) (by omega) (by omega) (by omega), ?_, ?_⟩⟩
  · unfold regAt
    simp only [Function.update_same]
  · intro hne
    unfold regAt
    simp only [Function.update_noteq (hbne hne)]
  · unfold regAt
    simp only [Function.update_same]
  · intro hne
    unfold regAt
    simp only [Function.update_noteq (hbne hne)]
  · unfold regAt
    simp only [Function.update_same]
  · intro hne
    unfold regAt
    simp only [Function.update_noteq (hbne hne)]

/-- C2 counterexample: with register 0 holding 1, ADD with a = b = 0
succeeds and leaves register 0 holding 2, so register b is mutated,
refuting the unamended claim at the pair a = b = 0. -/
theorem claim2_counterexample :
    okRegAt (alu (.intV ADD) (.intV 0) (.intV 0) cpuC2) 0 = some (.intV 2) ∧
    regAt cpuC2 0 = .intV 1 := by decide

/-- C2 witness: ADD, SUB and MUL on registers 0 and 1 of a concrete
machine holding 5 and 7. -/
theorem claim2_witness :
    (∃ u', alu (.intV ADD) (.intV 0) (.intV 1) cpuW3 = .ok u' ∧
      regAt u' 0 = valAdd (regAt cpuW3 0) (regAt cpuW3 1) ∧
      ((0 : Int) ≠ 1 → regAt u' 1 = regAt cpuW3 1)) ∧
    (∃ u', alu (.intV SUB) (.intV 0) (.intV 1) cpuW3 = .ok u' ∧
      regAt u' 0 = valSub (regAt cpuW3 0) (regAt cpuW3 1) ∧
      ((0 : Int) ≠ 1 → regAt u' 1 = regAt cpuW3 1)) ∧
    (∃ u', alu (.intV MUL) (.intV 0) (.intV 1) cpuW3 = .ok u' ∧
      regAt u' 0 = valMul (regAt cpuW3 0) (regAt cpuW3 1) ∧
      ((0 : Int) ≠ 1 → regAt u' 1 = regAt cpuW3 1)) :=
  claim2_alu_arithmetic cpuW3 0 1 (by decide) (by decide) (by decide) (by decide)

/-- C3: N consecutive PUSH cycles followed by N consecutive POP cycles,
with every address in bounds and the stack cells disjoint from the program
region, restore SP to its original value, leave the pc past the 2N
instructions, and the k-th pop (0-indexed, observed right after its cycle)
deposits into its named register the value pushed by push number N-1-k:
last-in-first-out.  With N = 1 this is the single PUSH-then-POP case: SP
returns to its pre-push value and the popped register holds the pushed
value. -/
theorem claim3_push_pop (s0 : CPU) (N : Nat) (r q : Nat → Int)
    (hpc0 : 0 ≤ s0.pc) (hpcN : s0.pc + 4 * (N : Int) ≤ 255)
    (hspN : (N : Int) ≤ s0.sp) (hsp256 : s0.sp ≤ 256)
    (hdisj : ∀ m : Nat, m < N →
      s0.sp - 1 - (m : Int) < s0.pc ∨ s0.pc + 4 * (N : Int) < s0.sp - 1 - (m : Int))
    (hr : ∀ m : Nat, m < N → 0 ≤ r m ∧ r m ≤ 7)
    (hq : ∀ m : Nat, m < N → 0 ≤ q m ∧ q m ≤ 7)
    (hprog : ∀ m : Nat, m < N →
      memAt s0 (s0.pc + 2 * (m : Int)) = .intV PUSH ∧
      memAt s0 (s0.pc + 2 * (m : Int) + 1) = .intV (r m))
    (hprog2 : ∀ m : Nat, m < N →
      memAt s0 (s0.pc + 2 * (N : Int) + 2 * (m : Int)) = .intV POP ∧
      memAt s0 (s0.pc + 2 * (N : Int) + 2 * (m : Int) + 1) = .intV (q m)) :
    (∃ sf, runSteps (2 * N) s0 = some sf ∧ sf.sp = s0.sp ∧
      sf.pc = s0.pc + 4 * (N : Int) ∧ sf.out = s0.out) ∧
    (∀ k : Nat, k < N → ∃ t, runSteps (N + k + 1) s0 = some t ∧
      regAt t (q k) = regAt s0 (r (N - 1 - k))) := by
  constructor
  · obtain ⟨t, hrun, hpc, hsp, hout, -, -, -⟩ :=
      pop_phase s0 N r q hpc0 hpcN hspN hsp256 hdisj hr hq hprog hprog2 N (le_refl N)
    refine ⟨t, ?_, by omega, by omega, hout⟩
    rw [two_mul]
    exact hrun
  · intro k hk
    obtain ⟨t, hrun, -, -, -, -, -, hlast⟩ :=
      pop_phase s0 N r q hpc0 hpcN hspN hsp256 hdisj hr hq hprog hprog2 (k + 1) (by omega)
    refine ⟨t, hrun, ?_⟩
    unfold regAt
    exact hlast k rfl

/-- C3 witness: PUSH R0, PUSH R1, POP R2, POP R3 (N = 2) on a concrete
machine with registers 0 and 1 holding 5 and 7 and SP at 243. -/
theorem claim3_witness :
    (∃ sf, runSteps (2 * 2) cpuW3 = some sf ∧ sf.sp = cpuW3.sp ∧
      sf.pc = cpuW3.pc + 4 * ((2 : Nat) : Int) ∧ sf.out = cpuW3.out) ∧
    (∀ k : Nat, k < 2 → ∃ t, runSteps (2 + k + 1) cpuW3 = some t ∧
      regAt t (qW3 k) = regAt cpuW3 (rW3 (2 - 1 - k))) :=
  claim3_push_pop cpuW3 2 rW3 qW3 (by decide) (by decide) (by decide) (by decide)
    (by decide) (by decide) (by decide) (by decide) (by decide)

/-- C4: a LOAD-IMMEDIATE cycle with register-index operand i at pc+1 and
value operand v at pc+2 sets register i to exactly v, changes no other
register, and changes no memory cell or the stack pointer. -/
theorem claim4_load_immediate (s : CPU) (i : Int) (v : Val)
    (hpc0 : 0 ≤ s.pc) (hpc2 : s.pc + 2 ≤ 255)
    (hins : memAt s s.pc = .intV LDI)
    (hi : memAt s (s.pc + 1) = .intV i)
    (hv : memAt s (s.pc + 2) = v)
    (hi1 : 0 ≤ i) (hi2 : i ≤ 7) :
    ∃ s', step s = .ok s' ∧ regAt s' i = v ∧
      (∀ j : Fin 8, j ≠ regFin i → s'.reg j = s.reg j) ∧
      s'.ram = s.ram ∧ s'.sp = s.sp := by
  refine ⟨_, step_ldi s i v hpc0 hpc2 hins hi hv (by omega) (by omega), ?_, ?_, rfl, rfl⟩
  · unfold regAt
    simp only [Function.update_same]
  · intro j hj
    simp only [Function.update_noteq hj]

/-- C4 witness: LDI R0, 8 on a concrete machine. -/
theorem claim4_witness :
    ∃ s', step cpuW1 = .ok s' ∧ regAt s' 0 = .intV 8 ∧
      (∀ j : Fin 8, j ≠ regFin 0 → s'.reg j = cpuW1.reg j) ∧
      s'.ram = cpuW1.ram ∧ s'.sp = cpuW1.sp :=
  claim4_load_immediate cpuW1 0 (.intV 8) (by decide) (by decide) (by decide)
    (by decide) (by decide) (by decide) (by decide)

/-- C5: the DIV arithmetic operation with a zero value in the divisor
register fails with the division-by-zero fault rather than continuing. -/
theorem claim5_div_by_zero (u : CPU) (a b : Int)
    (ha1 : 0 ≤ a) (ha2 : a ≤ 7) (hb1 : 0 ≤ b) (hb2 : b ≤ 7)
    (h0 : toQ (regAt u b) = 0) :
    alu (.intV DIV) (.intV a) (.intV b) u = .error .zeroDivisionError := by
  unfold regAt at h0
  exact alu_div_zero u a b (by omega) (by omega) (by omega) (by omega) h0

/-- C5 witness: DIV R1, R0 on the freshly constructed machine, whose
register 0 is zero. -/
theorem claim5_witness :
    alu (.intV DIV) (.intV 1) (.intV 0) initCPU = .error .zeroDivisionError :=
  claim5_div_by_zero initCPU 1 0 (by decide) (by decide) (by decide) (by decide)
    (by decide)

/-- C6, amended: a memory read or write faults with IndexError exactly
when the computed address lies outside [-256, 255]; addresses in
[-256, -1], although outside [0, 255], do not fault but wrap to the cell
at address plus 256.  The counterexample below forces the widening of the
fault region: address -1 is outside [0, 255] yet is served from cell
255. -/
theorem claim6_memory_bounds :
    (∀ (s : CPU) (a : Int), a < -256 ∨ 255 < a →
      ram_read a s = .error .indexError ∧
      ∀ v : Val, ram_write a v s = .error .indexError) ∧
    (∀ (s : CPU) (a : Int), -256 ≤ a → a ≤ -1 →
      readOut (ram_read a s) = some (memAt s (a + 256))) := by
  constructor
  · intro s a h
    exact ⟨ram_read_err a h s, fun v => ram_write_err a h v s⟩
  · intro s a h1 h2
    rw [ram_read_ok a (by omega) (by omega) s]
    unfold readOut memAt
    rw [addrFin_shift]

/-- C6 counterexample: reading address -1, which is outside [0, 255],
succeeds and returns the contents of cell 255 instead of faulting. -/
theorem claim6_counterexample :
    readOut (ram_read (-1) cpuC6) = some (.intV 42) ∧
    memAt cpuC6 255 = .intV 42 := by decide

/-- C6 witness: address 256 faults on read, and address -1 wraps. -/
theorem claim6_witness :
    ram_read 256 cpuC6 = .error .indexError ∧
    readOut (ram_read (-1) cpuC6) = some (memAt cpuC6 (-1 + 256)) :=
  ⟨(claim6_memory_bounds.1 cpuC6 256 (by decide)).1,
    claim6_memory_bounds.2 cpuC6 (-1) (by decide) (by decide)⟩

/-- C7: a cycle whose fetched instruction has bit 5 clear and is none of
the opcodes registered in the branch table faults with the lookup
KeyError. -/
theorem claim7_unknown_opcode (s : CPU) (n : Int)
    (hpc0 : 0 ≤ s.pc) (hpc2 : s.pc + 2 ≤ 255)
    (hins : memAt s s.pc = .intV n)
    (hbit : pyShr n 5 % 2 = 0)
    (h0 : n ≠ HLT) (h1 : n ≠ LDI) (h2 : n ≠ PRN) (h3 : n ≠ PUSH) (h4 : n ≠ POP) :
    step s = .fault .keyError :=
  step_unknown s n hpc0 hpc2 hins hbit h0 h1 h2 h3 h4

/-- C7 witness: opcode 0 (bit 5 clear, no handler) on the fresh machine. -/
theorem claim7_witness : step initCPU = .fault .keyError :=
  claim7_unknown_opcode initCPU 0 (by decide) (by decide) (by decide) (by decide)
    (by decide) (by decide) (by decide) (by decide) (by decide)

/-- C8: a cycle whose fetched instruction has bit 5 set but whose
selector is none of ADD, SUB, MUL, DIV faults with the unsupported
arithmetic operation error. -/
theorem claim8_unsupported_operation (s : CPU) (n : Int)
    (hpc0 : 0 ≤ s.pc) (hpc2 : s.pc + 2 ≤ 255)
    (hins : memAt s s.pc = .intV n)
    (hbit : pyShr n 5 % 2 ≠ 0)
    (h1 : n ≠ ADD) (h2 : n ≠ SUB) (h3 : n ≠ MUL) (h4 : n ≠ DIV) :
    step s = .fault .unsupportedOperation :=
  step_unsupported s n hpc0 hpc2 hins hbit h1 h2 h3 h4

/-- C8 witness: opcode 164 (bit 5 set, selector unknown). -/
theorem claim8_witness : step cpuW8 = .fault .unsupportedOperation :=
  claim8_unsupported_operation cpuW8 164 (by decide) (by decide) (by decide)
    (by decide) (by decide) (by decide) (by decide) (by decide)

/-- C9: a HALT cycle terminates the run loop at once: the run loop
returns halted for every remaining fuel, the program counter is not
advanced, and registers, memory, stack pointer and output are untouched,
so no subsequent memory contents are executed. -/
theorem claim9_halt (s : CPU)
    (hpc0 : 0 ≤ s.pc) (hpc2 : s.pc + 2 ≤ 255)
    (hins : memAt s s.pc = .intV HLT) :
    ∃ s', step s = .halt s' ∧ s'.pc = s.pc ∧ s'.reg = s.reg ∧ s'.ram = s.ram ∧
      s'.sp = s.sp ∧ s'.out = s.out ∧
      ∀ fuel : Nat, run (fuel + 1) s = .halted s' := by
  refine ⟨postFetch s HLT, step_hlt s hpc0 hpc2 hins, rfl, rfl, rfl, rfl, rfl, ?_⟩
  intro fuel
  have h := step_hlt s hpc0 hpc2 hins
  simp [run, h]

/-- C9 witness: a machine whose first instruction is HLT. -/
theorem claim9_witness :
    ∃ s', step cpuW9 = .halt s' ∧ s'.pc = cpuW9.pc ∧ s'.reg = cpuW9.reg ∧
      s'.ram = cpuW9.ram ∧ s'.sp = cpuW9.sp ∧ s'.out = cpuW9.out ∧
      ∀ fuel : Nat, run (fuel + 1) cpuW9 = .halted s' :=
  claim9_halt cpuW9 (by decide) (by decide) (by decide)

/-- C10: an address in [-256, -1] is served from the cell at 256 plus the
address, for reads and writes, instead of faulting; and a PUSH cycle
executed with SP = 0 decrements SP to -1 and writes the named register's
value to the cell at address 255. -/
theorem claim10_negative_wrap :
    (∀ (s : CPU) (a : Int), -256 ≤ a → a ≤ -1 →
      ram_read a s = .ok (memAt s (a + 256), { s with mar := a, mdr := some (memAt s (a + 256)) }) ∧
      ∀ v : Val, ram_write a v s = .ok { s with ram := Function.update s.ram (addrFin (a + 256)) v, mar := a, mdr := some v }) ∧
    (∀ (s : CPU) (rr : Int), s.sp = 0 → 0 ≤ s.pc → s.pc + 2 ≤ 255 →
      memAt s s.pc = .intV PUSH → memAt s (s.pc + 1) = .intV rr → 0 ≤ rr → rr ≤ 7 →
      ∃ s', step s = .ok s' ∧ s'.sp = -1 ∧ memAt s' 255 = regAt s rr) := by
  constructor
  · intro s a h1 h2
    constructor
    · rw [ram_read_ok a (by omega) (by omega) s]
      unfold memAt
      rw [addrFin_shift]
    · intro v
      rw [ram_write_ok a (by omega) (by omega) v s, addrFin_shift]
  · intro s rr hsp0 hpc0 hpc2 hins hr hr1 hr2
    refine ⟨_, step_push s rr hpc0 hpc2 (by omega) (by omega) hins hr (by omega) (by omega),
      ?_, ?_⟩
    · simp only []
      omega
    · unfold memAt
      simp only []
      have haddr : addrFin (s.sp - 1) = addrFin 255 := by
        rw [hsp0]
        decide
      rw [haddr, Function.update_same]

/-- C10 witness: reading address -1 of a concrete machine, and a PUSH R0
cycle with SP = 0. -/
theorem claim10_witness :
    (ram_read (-1) cpuW10 = .ok (memAt cpuW10 (-1 + 256), { cpuW10 with mar := -1, mdr := some (memAt cpuW10 (-1 + 256)) })) ∧
    (∃ s', step cpuW10 = .ok s' ∧ s'.sp = -1 ∧ memAt s' 255 = regAt cpuW10 0) :=
  ⟨(claim10_negative_wrap.1 cpuW10 (-1) (by decide) (by decide)).1,
    claim10_negative_wrap.2 cpuW10 0 (by decide) (by decide) (by decide) (by decide)
      (by decide) (by decide) (by decide)⟩

end LS8
